import Mathlib

/-!
Verification of the Control Chain device listener (`mod/control_chain.py`).

The development shallowly embeds the module: JSON frames are modelled by the
`JVal` family together with an encoder and a fuel-based decoder (the codec
itself is Python's `json` standard library, absent from the sources, so it is
modelled from the specification's wire-format section); the listener's mutable
object state is the `CCState` structure, and each method becomes a pure
function from states to states paired with a trace of the externally visible
callback invocations.  Machine-level exceptions (`ValueError`, `KeyError`,
`TypeError`) are represented by `Except PyErr`.
-/

namespace CC

/-- Characters of a string literal, as the `List Char` the embedding works on. -/
def chars (s : String) : List Char := s.data

/-- Decimal digit character test (`'0'` to `'9'`). -/
def isDigitC (c : Char) : Bool := 48 ≤ c.toNat && c.toNat ≤ 57

/-- True when the list does not begin with a decimal digit, so it cannot
extend a rendered integer token. -/
def noDigitHead : List Char → Bool
  | [] => true
  | c :: _ => !(isDigitC c)

/-! ### JSON values

Modelled from the spec: the wire format is "a UTF-8 JSON object followed by a
single `0x00` terminator byte"; the codec behind it is Python's `json` module,
which is not part of the repository sources.  Numbers are restricted to
integers, the only numeric payloads this protocol carries. -/

mutual
inductive JVal where
  | null
  | bool (b : Bool)
  | int (n : Int)
  | str (s : List Char)
  | arr (a : JArr)
  | obj (o : JObj)
inductive JArr where
  | nil
  | cons (hd : JVal) (tl : JArr)
inductive JObj where
  | nil
  | cons (key : List Char) (val : JVal) (tl : JObj)
end

deriving instance DecidableEq for JVal
deriving instance DecidableEq for JArr
deriving instance DecidableEq for JObj

/-- The digit character of `k < 10`. -/
def digitChar (k : Nat) : Char := Char.ofNat (48 + k)

/-- Lower-case hexadecimal digit character of `k < 16`. -/
def hexChar (k : Nat) : Char :=
  if k < 10 then Char.ofNat (48 + k) else Char.ofNat (87 + k)

/-- Decimal digits of `n`, most significant first, structurally recursive on a
fuel argument so that concrete frames evaluate inside the kernel. -/
def natDigitsF : Nat → Nat → List Char
  | 0, n => [digitChar (n % 10)]
  | f + 1, n =>
    if n < 10 then [digitChar n]
    else natDigitsF f (n / 10) ++ [digitChar (n % 10)]

/-- Decimal digits of `n`, most significant first. -/
def natDigits (n : Nat) : List Char := natDigitsF n n

/-- Integer token: optional minus sign, then decimal digits (the shape shared
by JSON integers and Python's `"%i"` formatting). -/
def encInt (n : Int) : List Char :=
  if n < 0 then '-' :: natDigits (-n).toNat else natDigits n.toNat

/-- JSON escape of one character: `"` and `\` get a backslash escape, control
characters a `\u00XX` escape (so no raw NUL can reach the frame terminator),
everything else stands for itself. -/
def escapeChar (c : Char) : List Char :=
  if c = '"' then ['\\', '"']
  else if c = '\\' then ['\\', '\\']
  else if c.toNat < 32 then
    ['\\', 'u', '0', '0', hexChar (c.toNat / 16), hexChar (c.toNat % 16)]
  else [c]

/-- JSON escape of a whole string body. -/
def escapeStr : List Char → List Char
  | [] => []
  | c :: rest => escapeChar c ++ escapeStr rest

/-- The keyword `null` as characters. -/
def nullTok : List Char := ['n', 'u', 'l', 'l']

/-- The keyword `true` as characters. -/
def trueTok : List Char := ['t', 'r', 'u', 'e']

/-- The keyword `false` as characters. -/
def falseTok : List Char := ['f', 'a', 'l', 's', 'e']

mutual
/-- Render a JSON value to characters (compact form, no whitespace). -/
def encVal : JVal → List Char
  | .null => nullTok
  | .bool true => trueTok
  | .bool false => falseTok
  | .int n => encInt n
  | .str s => '"' :: (escapeStr s ++ ['"'])
  | .arr a => '[' :: (encArr a ++ [']'])
  | .obj o => '\x7b' :: (encObj o ++ ['\x7d'])
/-- Render array elements, comma separated. -/
def encArr : JArr → List Char
  | .nil => []
  | .cons v t => encVal v ++ encArrRest t
/-- Render the tail of an array element list, each element preceded by `,`. -/
def encArrRest : JArr → List Char
  | .nil => []
  | .cons v t => ',' :: (encVal v ++ encArrRest t)
/-- Render object members, comma separated. -/
def encObj : JObj → List Char
  | .nil => []
  | .cons k v t => '"' :: (escapeStr k ++ '"' :: ':' :: (encVal v ++ encObjRest t))
/-- Render the tail of an object member list, each member preceded by `,`. -/
def encObjRest : JObj → List Char
  | .nil => []
  | .cons k v t =>
    ',' :: '"' :: (escapeStr k ++ '"' :: ':' :: (encVal v ++ encObjRest t))
end

/-- Value of a hexadecimal digit character. -/
def hexDigitVal (c : Char) : Option Nat :=
  if 48 ≤ c.toNat ∧ c.toNat ≤ 57 then some (c.toNat - 48)
  else if 97 ≤ c.toNat ∧ c.toNat ≤ 102 then some (c.toNat - 87)
  else if 65 ≤ c.toNat ∧ c.toNat ≤ 70 then some (c.toNat - 55)
  else none

/-- Value of a four-digit hexadecimal escape. -/
def hex4Val (a b c d : Char) : Option Nat := do
  let x ← hexDigitVal a
  let y ← hexDigitVal b
  let z ← hexDigitVal c
  let w ← hexDigitVal d
  pure (((x * 16 + y) * 16 + z) * 16 + w)

/-- Drop an expected literal prefix, or fail. -/
def dropPrefixC : List Char → List Char → Option (List Char)
  | [], cs => some cs
  | _ :: _, [] => none
  | p :: ps, c :: cs => if c = p then dropPrefixC ps cs else none

/-- Split a leading run of decimal digits off the input. -/
def splitDigits : List Char → List Char × List Char
  | [] => ([], [])
  | c :: rest =>
    if isDigitC c then
      let p := splitDigits rest
      (c :: p.1, p.2)
    else ([], c :: rest)

/-- Numeric value of a digit run. -/
def digitsVal (ds : List Char) : Nat :=
  ds.foldl (fun acc c => acc * 10 + (c.toNat - 48)) 0

/-- Parse a nonempty digit run into a natural number. -/
def parseNatTok (cs : List Char) : Option (Nat × List Char) :=
  match splitDigits cs with
  | ([], _) => none
  | (ds, rest) => some (digitsVal ds, rest)

/-- Parse an integer token: optional minus sign, then digits. -/
def parseIntTok (cs : List Char) : Option (Int × List Char) :=
  match cs with
  | [] => none
  | c :: rest =>
    if c = '-' then (parseNatTok rest).map (fun p => (-(p.1 : Int), p.2))
    else (parseNatTok (c :: rest)).map (fun p => ((p.1 : Int), p.2))

/-- Parse a string body after the opening quote, up to the closing quote,
undoing the escapes `escapeChar` can produce. -/
def parseStrBody : List Char → Option (List Char × List Char)
  | [] => none
  | c :: rest =>
    if c = '"' then some ([], rest)
    else if c = '\\' then
      match rest with
      | [] => none
      | e :: rest2 =>
        if e = '"' then (parseStrBody rest2).map (fun p => ('"' :: p.1, p.2))
        else if e = '\\' then (parseStrBody rest2).map (fun p => ('\\' :: p.1, p.2))
        else if e = 'u' then
          match rest2 with
          | h1 :: h2 :: h3 :: h4 :: rest3 =>
            match hex4Val h1 h2 h3 h4 with
            | some n => (parseStrBody rest3).map (fun p => (Char.ofNat n :: p.1, p.2))
            | none => none
          | _ => none
        else none
    else (parseStrBody rest).map (fun p => (c :: p.1, p.2))

mutual
/-- Fuel-based JSON parser for one value. -/
def parseVal : Nat → List Char → Option (JVal × List Char)
  | 0, _ => none
  | fuel + 1, cs =>
    match cs with
    | [] => none
    | c :: rest =>
      if c = 'n' then (dropPrefixC ['u', 'l', 'l'] rest).map (fun r => (.null, r))
      else if c = 't' then (dropPrefixC ['r', 'u', 'e'] rest).map (fun r => (.bool true, r))
      else if c = 'f' then (dropPrefixC ['a', 'l', 's', 'e'] rest).map (fun r => (.bool false, r))
      else if c = '"' then (parseStrBody rest).map (fun p => (.str p.1, p.2))
      else if c = '[' then
        match rest with
        | [] => none
        | c2 :: rest2 =>
          if c2 = ']' then some (.arr .nil, rest2)
          else (parseElems fuel (c2 :: rest2)).map (fun p => (.arr p.1, p.2))
      else if c = '\x7b' then
        match rest with
        | [] => none
        | c2 :: rest2 =>
          if c2 = '\x7d' then some (.obj .nil, rest2)
          else (parseMembers fuel (c2 :: rest2)).map (fun p => (.obj p.1, p.2))
      else (parseIntTok (c :: rest)).map (fun p => (.int p.1, p.2))
/-- Fuel-based parser for one or more array elements up to the closing `]`. -/
def parseElems : Nat → List Char → Option (JArr × List Char)
  | 0, _ => none
  | fuel + 1, cs =>
    (parseVal fuel cs).bind (fun p =>
      match p.2 with
      | [] => none
      | c :: rest =>
        if c = ',' then (parseElems fuel rest).map (fun q => (.cons p.1 q.1, q.2))
        else if c = ']' then some (.cons p.1 .nil, rest)
        else none)
/-- Fuel-based parser for one or more object members up to the closing brace. -/
def parseMembers : Nat → List Char → Option (JObj × List Char)
  | 0, _ => none
  | fuel + 1, cs =>
    match cs with
    | [] => none
    | c :: rest =>
      if c = '"' then
        (parseStrBody rest).bind (fun kp =>
          match kp.2 with
          | [] => none
          | c2 :: rest2 =>
            if c2 = ':' then
              (parseVal fuel rest2).bind (fun vp =>
                match vp.2 with
                | [] => none
                | c3 :: rest3 =>
                  if c3 = ',' then
                    (parseMembers fuel rest3).map (fun q => (.cons kp.1 vp.1 q.1, q.2))
                  else if c3 = '\x7d' then some (.cons kp.1 vp.1 .nil, rest3)
                  else none)
            else none)
      else none
end

/-- Decode one NUL-terminated frame: strip the terminator (`resp[:-1]` in the
source) and parse the remaining text as a single JSON value. -/
def decodeFrame (frame : List Char) : Option JVal :=
  match parseVal frame.length frame.dropLast with
  | some (v, []) => some v
  | _ => none

/-! ## The listener engine

Everything below embeds `mod/control_chain.py` itself.  Callbacks handed to
the listener (`hw_added_cb`, `act_added_cb`, `act_removed_cb`, request
callbacks, `wait_initialized` callbacks) are opaque host values; the embedding
names request/latch callbacks by numeric identifiers and records each
externally visible action as an event in a trace, in invocation order. -/

deriving instance DecidableEq for Except

/-- Python exceptions the embedded code can raise. -/
inductive PyErr where
  | valueError
  | keyError
  | typeError
deriving DecidableEq

/-- `data[key]` on a decoded JSON value: `KeyError` for a missing key on a
dict, `TypeError` when subscripting a non-dict with a string key. -/
def jFind : JObj → List Char → Option JVal
  | .nil, _ => none
  | .cons k v t, key => if k = key then some v else jFind t key

/-- Python subscript `data[key]` with a string key. -/
def jIndex : JVal → List Char → Except PyErr JVal
  | .obj o, key =>
    match jFind o key with
    | some v => .ok v
    | none => .error .keyError
  | _, _ => .error .typeError

/-- Python truthiness of a decoded JSON value. -/
def jTruthy : JVal → Bool
  | .null => false
  | .bool b => b
  | .int n => n ≠ 0
  | .str s => s ≠ []
  | .arr a => a ≠ .nil
  | .obj o => o ≠ .nil

/-- The device record stored in `hw_versions`: `(uri, label, version)`. -/
abbrev DevRecord := List Char × List Char × JVal

/-- The `hw_versions` dict: insertion-ordered, keyed by `device_id`. -/
abbrev HwVersions := List (JVal × DevRecord)

/-- Python dict assignment `d[k] = v`: replace in place, else append. -/
def dictSet : HwVersions → JVal → DevRecord → HwVersions
  | [], k, v => [(k, v)]
  | (k1, v1) :: t, k, v =>
    if k1 = k then (k1, v) :: t else (k1, v1) :: dictSet t k v

/-- `d.pop(k)` with the `KeyError` swallowed: remove the key if present. -/
def dictPop : HwVersions → JVal → HwVersions
  | [], _ => []
  | (k1, v1) :: t, k => if k1 = k then t else (k1, v1) :: dictPop t k

/-- One component of a Python tuple produced by `hw_versions.items()`: the key
or the stored record. -/
inductive PyComp where
  | keyPart (k : JVal)
  | valPart (r : DevRecord)
deriving DecidableEq

/-- `hw_versions.items()`: a list of 2-tuples `(key, value)`, in dict order. -/
def itemsOf (hw : HwVersions) : List (List PyComp) :=
  hw.map (fun kv => [PyComp.keyPart kv.1, PyComp.valPart kv.2])

/-- Python tuple unpacking `a, b, c = t`: succeeds exactly when the tuple has
three components, otherwise raises `ValueError`. -/
def unpack3 : List PyComp → Except PyErr (PyComp × PyComp × PyComp)
  | [a, b, c] => .ok (a, b, c)
  | _ => .error .valueError

/-- Python `==` between an unpacked tuple component and a string: equal types
compare structurally, different types compare unequal (no exception). -/
def compEqStr : PyComp → List Char → Bool
  | .keyPart (JVal.str t), s => t = s
  | _, _ => false

/-- The unique-id loop of `send_device_descriptor` (control_chain.py lines
196-199): `for _dev_uri, _1, _2 in self.hw_versions.items(): ...`, counting
items whose first unpacked component equals the device uri. -/
def uniqueIdLoop (uri : List Char) : List (List PyComp) → Nat → Except PyErr Nat
  | [], acc => .ok acc
  | it :: rest, acc => do
    let (a, _, _) ← unpack3 it
    uniqueIdLoop uri rest (if compEqStr a uri then acc + 1 else acc)

/-! ### Descriptor ingestion (`send_device_descriptor`) -/

/-- A well-typed actuator entry of a `device_descriptor` reply. -/
structure CCActuator where
  id : Int
  name : List Char
  supported_modes : Int
  max_assignments : Int
deriving DecidableEq

/-- A well-typed `device_descriptor` reply payload. -/
structure CCDescriptor where
  label : List Char
  uri : List Char
  version : JVal
  actuators : List CCActuator
deriving DecidableEq

/-- The actuator metadata object built for `act_added_cb`. -/
structure Metadata where
  uri : List Char
  name : List Char
  modes : List Char
  steps : List Int
  max_assigns : Int
deriving DecidableEq

/-- Externally visible actions of descriptor ingestion, in invocation order. -/
inductive IngEvent where
  | warned (uri : List Char)
  | hwAdded (uri label : List Char) (version : JVal)
  | actAdded (devId : JVal) (actId : Int) (meta : Metadata)
  | completed
deriving DecidableEq

/-- The mode-tag accumulation of the actuator loop (control_chain.py lines
205-213): `modes_str` after the three bit tests, before the trailing colon. -/
def modesStr (m : Int) : List Char :=
  (if Int.land m 1 ≠ 0 then chars ":bypass:toggled" else []) ++
  (if Int.land m 2 ≠ 0 then chars ":trigger" else []) ++
  (if Int.land m 4 ≠ 0 then chars ":enumeration" else [])

/-- The actuator loop of `send_device_descriptor` (lines 204-227): skip an
actuator whose `modes_str` is empty, otherwise emit `act_added_cb` with the
metadata object.  `rawLabel` is `dev['label']` before `symbolify`, which is
what the metadata `name` field uses. -/
def actuatorEvents (devId : JVal) (devUri : List Char) (uid : Nat)
    (rawLabel : List Char) : List CCActuator → List IngEvent
  | [] => []
  | act :: rest =>
    if modesStr act.supported_modes = [] then
      actuatorEvents devId devUri uid rawLabel rest
    else
      .actAdded devId act.id
        ⟨devUri ++ ':' :: (natDigits uid ++ ':' :: encInt act.id),
         rawLabel ++ ':' :: act.name,
         modesStr act.supported_modes ++ [':'],
         [], act.max_assignments⟩ :: actuatorEvents devId devUri uid rawLabel rest

/-- The `dev_desc_cb` closure of `send_device_descriptor` (lines 186-229),
applied to a well-typed descriptor reply.  `symb` is the `symbolify` helper
imported from the `mod` package (not part of the sources), kept abstract.
Returns the events fired and the updated `hw_versions`, or the exception the
body raises. -/
def devDescCb (symb : List Char → List Char) (hw : HwVersions) (devId : JVal)
    (dev : CCDescriptor) : Except PyErr (List IngEvent × HwVersions) :=
  let devLabel := symb dev.label
  let devUri := dev.uri
  if ' ' ∈ devUri then .ok ([.warned devUri, .completed], hw)
  else
    match uniqueIdLoop devUri (itemsOf hw) 0 with
    | .error e => .error e
    | .ok uid =>
      .ok (.hwAdded devUri devLabel dev.version ::
            (actuatorEvents devId devUri uid dev.label dev.actuators
              ++ [.completed]),
           dictSet hw devId (devUri, devLabel, dev.version))

/-! ### Connection state and latch -/

/-- An outbound request queued by `send_request`: the encoded frame, the
request name, and the optional callback (identified by a number). -/
structure Req where
  toSend : List Char
  name : List Char
  callback : Option Nat
deriving DecidableEq

/-- The listener's mutable fields (`__init__`, lines 20-28).  The socket is
modelled by presence (`some ()`) or absence (`none`). -/
structure CCState where
  crashed : Bool
  idle : Bool
  initialized : Bool
  initialized_cb : Option Nat
  hw_versions : HwVersions
  write_queue : List Req
  socket : Option Unit
deriving DecidableEq

/-- A latch-side event: an invocation of a `wait_initialized` callback. -/
inductive LEvent where
  | invoked (cb : Nat)
deriving DecidableEq

/-- `set_initialized` (lines 84-91): raise the latch; invoke and clear the
stored callback if one is present. -/
def set_initialized (s : CCState) : CCState × List LEvent :=
  let s1 := { s with initialized := true }
  match s1.initialized_cb with
  | some cb => ({ s1 with initialized_cb := none }, [.invoked cb])
  | none => (s1, [])

/-- `wait_initialized` (lines 59-64): synchronous invocation when the latch is
already up, otherwise store the callback (overwriting the slot). -/
def wait_initialized (s : CCState) (cb : Nat) : CCState × List LEvent :=
  if s.initialized then (s, [.invoked cb])
  else ({ s with initialized_cb := some cb }, [])

/-- `connection_closed` (lines 78-82): drop the socket, record the crash and
force the latch. -/
def connection_closed (s : CCState) : CCState × List LEvent :=
  set_initialized { s with socket := none, crashed := true }

/-! ### The write queue (`process_write_queue`, `send_request`) -/

/-- Externally visible actions of the write queue, in order: a frame written
to the socket, a reply frame consumed from it, the error print of a failed
decode or name mismatch, a request callback invocation, or a queued request
popped and dropped because the socket is gone. -/
inductive QEvent where
  | sent (name : List Char)
  | replied
  | logged
  | invoked (cb : Nat) (payload : JVal)
  | discarded (name : List Char)
deriving DecidableEq

/-- The `check_write_response` closure (lines 135-150), up to the tail call to
`process_write_queue`: events fired for one reply frame, or the exception the
body raises. -/
def check_write_response (r : Req) (resp : List Char) :
    Except PyErr (List QEvent) :=
  match r.callback with
  | none => .ok []
  | some cb =>
    match decodeFrame resp with
    | none => .ok [.logged]
    | some d =>
      if d = .null then .ok []
      else
        match jIndex d (chars "reply") with
        | .error e => .error e
        | .ok rv =>
          if rv = .str r.name then
            match jIndex d (chars "data") with
            | .error e => .error e
            | .ok payload => .ok [.invoked cb payload]
          else .ok [.logged]

/-- Result of draining the write queue. -/
structure DrainOut where
  queue : List Req
  idle : Bool
  trace : List QEvent
  err : Option PyErr
deriving DecidableEq

/-- The drain loop of `process_write_queue` (lines 124-154) against a stream
of reply frames.  Empty queue: mark idle.  Socket gone: pop and drop, recurse.
Otherwise write the head frame and wait: with no reply available the drain
blocks (one request in flight); with a reply, run `check_write_response` and
recurse, halting if it raises (the tail recursion is then never reached). -/
def drainGo (socket : Option Unit) : List Req → List (List Char) → DrainOut
  | [], _ => ⟨[], true, [], none⟩
  | r :: rest, replies =>
    match socket with
    | none =>
      let d := drainGo socket rest replies
      ⟨d.queue, d.idle, .discarded r.name :: d.trace, d.err⟩
    | some _ =>
      match replies with
      | [] => ⟨rest, false, [.sent r.name], none⟩
      | resp :: rs =>
        match check_write_response r resp with
        | .error e => ⟨rest, false, [.sent r.name, .replied], some e⟩
        | .ok evs =>
          let d := drainGo socket rest rs
          ⟨d.queue, d.idle, .sent r.name :: .replied :: (evs ++ d.trace), d.err⟩

/-- `process_write_queue` on the listener state. -/
def process_write_queue (s : CCState) (replies : List (List Char)) :
    CCState × List QEvent × Option PyErr :=
  let d := drainGo s.socket s.write_queue replies
  ({ s with write_queue := d.queue, idle := d.idle }, d.trace, d.err)

/-- The frame `send_request` encodes for a request: the JSON object
`\x7b"request": name, "data": payload\x7d` plus the NUL terminator. -/
def encodeRequest (name : List Char) (payload : JVal) : List Char :=
  encVal (.obj (.cons (chars "request") (.str name)
    (.cons (chars "data") payload .nil))) ++ [Char.ofNat 0]

/-- `send_request` (lines 158-169): encode the request as a NUL-terminated
frame, append it to the queue, and drain immediately when idle. -/
def send_request (s : CCState) (name : List Char) (payload : JVal)
    (cb : Option Nat) (replies : List (List Char)) :
    CCState × List QEvent × Option PyErr :=
  let r : Req := ⟨encodeRequest name payload, name, cb⟩
  let s1 := { s with write_queue := s.write_queue ++ [r] }
  if s1.idle then process_write_queue s1 replies else (s1, [], none)

/-- The callback identifier the embedding gives `device_list_init`. -/
def devListCb : Nat := 0

/-- `start` (lines 34-50): with the socket path missing, only force the latch;
otherwise reset the latch, open a fresh socket and queue the `device_list`
request (no reply can be available before the connection completes). -/
def start (pathExists : Bool) (s : CCState) :
    CCState × List QEvent × Option PyErr :=
  if pathExists = false then ({ s with initialized := true }, [], none)
  else
    let s1 := { s with initialized := false, socket := some () }
    send_request s1 (chars "device_list") .null (some devListCb) []

/-- `restart_if_crashed` (lines 52-57): no-op unless crashed; otherwise clear
the flag and start again. -/
def restart_if_crashed (pathExists : Bool) (s : CCState) :
    CCState × List QEvent × Option PyErr :=
  if s.crashed = false then (s, [], none)
  else start pathExists { s with crashed := false }

/-! ### The read side (`check_read_response`) -/

/-- Externally visible actions of the event channel. -/
inductive REvent where
  | rlogged
  | fetchDesc (devId : JVal)
  | removed (devId : JVal)
deriving DecidableEq

/-- Outcome of `check_read_response` on one frame: events fired, updated
`hw_versions`, whether the next read was re-armed (the `finally` block), and
the exception escaping the handler, if any. -/
structure ReadOutcome where
  events : List REvent
  hw : HwVersions
  rearmed : Bool
  err : Option PyErr
deriving DecidableEq

/-- The `else` clause of `check_read_response` (lines 104-117): runs only when
decoding succeeded; its subscript failures are not caught by the bare
`except`. -/
def readBody (hw : HwVersions) (data : JVal) :
    Except PyErr (List REvent × HwVersions) :=
  match jIndex data (chars "event") with
  | .error e => .error e
  | .ok ev =>
    if ev = .str (chars "device_status") then
      match jIndex data (chars "data") with
      | .error e => .error e
      | .ok d =>
        match jIndex d (chars "device_id") with
        | .error e => .error e
        | .ok devId =>
          match jIndex d (chars "status") with
          | .error e => .error e
          | .ok st =>
            if jTruthy st then .ok ([.fetchDesc devId], hw)
            else .ok ([.removed devId], dictPop hw devId)
    else .ok ([], hw)

/-- `check_read_response` (lines 98-120): decode failures are caught and
logged; failures of the `else` clause escape, but the `finally` block re-arms
the read either way. -/
def check_read_response (hw : HwVersions) (resp : List Char) : ReadOutcome :=
  match decodeFrame resp with
  | none => ⟨[.rlogged], hw, true, none⟩
  | some data =>
    match readBody hw data with
    | .ok p => ⟨p.1, p.2, true, none⟩
    | .error e => ⟨[], hw, true, some e⟩


/-! ### Support definitions for the claim statements -/

/-- The recognized capability tags of a mode bitmask, in the spec's wording:
bit 0 contributes `bypass` and `toggled`, bit 1 `trigger`, bit 2
`enumeration`. -/
def modeTags (m : Int) : List (List Char) :=
  (if Int.land m 1 ≠ 0 then [chars "bypass", chars "toggled"] else []) ++
  (if Int.land m 2 ≠ 0 then [chars "trigger"] else []) ++
  (if Int.land m 4 ≠ 0 then [chars "enumeration"] else [])

/-- Concatenation of a tag list, each tag prefixed with a colon. -/
def tagConcat (ts : List (List Char)) : List Char :=
  ts.foldr (fun t acc => ':' :: (t ++ acc)) []

/-- Recognizer for hardware-added events. -/
def isHwAdded : IngEvent → Bool
  | .hwAdded .. => true
  | _ => false

/-- Recognizer for actuator-added events. -/
def isActAdded : IngEvent → Bool
  | .actAdded .. => true
  | _ => false

/-- Python's `str.isspace` characters that fit in one byte of ASCII. -/
def isPyWhite (c : Char) : Bool :=
  c ∈ [' ', '\t', '\n', '\r', '\x0b', '\x0c']

/-- Callback identifiers of reply deliveries, in trace order. -/
def invokedCbs : List QEvent → List Nat
  | [] => []
  | .invoked cb _ :: rest => cb :: invokedCbs rest
  | _ :: rest => invokedCbs rest

/-- Events a `check_write_response` run can put in the trace (no writes, no
further reads). -/
def neutralEv : QEvent → Bool
  | .sent _ => false
  | .replied => false
  | _ => true

/-- Scan of a trace checking the one-request-in-flight discipline: a frame is
written only when no request is outstanding, a reply consumed only when
exactly one is. -/
def outstandingOk : List QEvent → Nat → Bool
  | [], _ => true
  | .sent _ :: rest, 0 => outstandingOk rest 1
  | .sent _ :: _, _ + 1 => false
  | .replied :: rest, n => n == 1 && outstandingOk rest 0
  | _ :: rest, n => outstandingOk rest n

/-- Register a sequence of `wait_initialized` callbacks, collecting any
synchronous invocations. -/
def waitAll (s : CCState) : List Nat → CCState × List LEvent
  | [] => (s, [])
  | cb :: rest =>
    let p := wait_initialized s cb
    let q := waitAll p.1 rest
    (q.1, p.2 ++ q.2)

/-! ### Codec round-trip lemmas -/

/-- Characters are equal only when their code points are. -/
theorem char_ne_of_toNat {a b : Char} (h : a.toNat ≠ b.toNat) : a ≠ b :=
  fun e => h (congrArg Char.toNat e)

/-- Code-point bounds carried by `isDigitC`. -/
theorem isDigitC_bounds {c : Char} (h : isDigitC c = true) :
    48 ≤ c.toNat ∧ c.toNat ≤ 57 := by
  simpa [isDigitC] using h

/-- A digit character differs from any character whose code point lies outside
the digit range. -/
theorem digit_ne_lit {c : Char} (h : isDigitC c = true) {m : Char}
    (hm : m.toNat < 48 ∨ 57 < m.toNat) : c ≠ m := by
  obtain ⟨h1, h2⟩ := isDigitC_bounds h
  exact char_ne_of_toNat (by omega)

/-- The digit character of `k < 10` carries code point `48 + k` and is a digit. -/
theorem digitChar_spec : ∀ k, k < 10 →
    (digitChar k).toNat = 48 + k ∧ isDigitC (digitChar k) = true := by decide

/-- The fuel argument of `natDigitsF` is irrelevant once it dominates `n`. -/
theorem natDigitsF_congr : ∀ (n f g : Nat), n ≤ f → n ≤ g →
    natDigitsF f n = natDigitsF g n := by
  intro n
  induction n using Nat.strong_induction_on with
  | _ n ih =>
    intro f g hf hg
    match f, g with
    | 0, 0 => rfl
    | 0, g + 1 =>
      have hn : n = 0 := Nat.le_zero.mp hf
      subst hn
      simp [natDigitsF]
    | f + 1, 0 =>
      have hn : n = 0 := Nat.le_zero.mp hg
      subst hn
      simp [natDigitsF]
    | f + 1, g + 1 =>
      by_cases h : n < 10
      · simp [natDigitsF, h]
      · simp only [natDigitsF, if_neg h]
        rw [ih (n / 10) (Nat.div_lt_self (by omega) (by omega)) f g (by omega) (by omega)]

/-- Recursion equation of `natDigits` in fuel-free form. -/
theorem natDigits_unfold (n : Nat) :
    natDigits n = if n < 10 then [digitChar n]
                  else natDigits (n / 10) ++ [digitChar (n % 10)] := by
  match n with
  | 0 => simp [natDigits, natDigitsF]
  | m + 1 =>
    by_cases h : m + 1 < 10
    · simp [natDigits, natDigitsF, h]
    · simp only [natDigits, natDigitsF, if_neg h]
      rw [natDigitsF_congr ((m + 1) / 10) m ((m + 1) / 10)
        (by omega) (Nat.le_refl _)]

/-- Every character `natDigits` emits is a digit. -/
theorem natDigits_digits (n : Nat) : ∀ c ∈ natDigits n, isDigitC c = true := by
  induction n using Nat.strong_induction_on with
  | _ n ih =>
    rw [natDigits_unfold]
    by_cases h : n < 10
    · simp only [if_pos h, List.mem_singleton]
      rintro c rfl
      exact (digitChar_spec n h).2
    · simp only [if_neg h, List.mem_append, List.mem_singleton]
      rintro c (hc | rfl)
      · exact ih (n / 10) (Nat.div_lt_self (by omega) (by omega)) c hc
      · exact (digitChar_spec (n % 10) (Nat.mod_lt _ (by omega))).2

/-- A digit run is a nonempty list headed by a digit. -/
theorem natDigits_cons (n : Nat) :
    ∃ c t, natDigits n = c :: t ∧ isDigitC c = true := by
  have hne : natDigits n ≠ [] := by
    rw [natDigits_unfold]
    split <;> simp
  match hnd : natDigits n with
  | [] => exact absurd hnd hne
  | c :: t =>
    refine ⟨c, t, rfl, natDigits_digits n c ?_⟩
    rw [hnd]
    exact List.mem_cons_self ..

/-- Folding one more digit onto a decimal accumulator. -/
theorem digitsVal_append (ds : List Char) (c : Char) :
    digitsVal (ds ++ [c]) = digitsVal ds * 10 + (c.toNat - 48) := by
  simp [digitsVal, List.foldl_append]

/-- The decimal value of the digits of `n` is `n`. -/
theorem digitsVal_natDigits (n : Nat) : digitsVal (natDigits n) = n := by
  induction n using Nat.strong_induction_on with
  | _ n ih =>
    rw [natDigits_unfold]
    by_cases h : n < 10
    · simp only [if_pos h]
      simp [digitsVal, (digitChar_spec n h).1]
    · simp only [if_neg h]
      rw [digitsVal_append, ih (n / 10) (Nat.div_lt_self (by omega) (by omega)),
        (digitChar_spec (n % 10) (Nat.mod_lt _ (by omega))).1]
      omega

/-- `splitDigits` takes nothing from an input with no leading digit. -/
theorem splitDigits_stop (cs : List Char) (h : noDigitHead cs = true) :
    splitDigits cs = ([], cs) := by
  match cs with
  | [] => rfl
  | c :: rest =>
    simp only [noDigitHead, Bool.not_eq_true'] at h
    simp [splitDigits, h]

/-- `splitDigits` consumes exactly a leading all-digit run. -/
theorem splitDigits_run (ds rest : List Char) (hds : ∀ c ∈ ds, isDigitC c = true)
    (hrest : noDigitHead rest = true) : splitDigits (ds ++ rest) = (ds, rest) := by
  induction ds with
  | nil => simpa using splitDigits_stop rest hrest
  | cons c t ih =>
    have hc := hds c (List.mem_cons_self ..)
    simp [splitDigits, hc, ih (fun x hx => hds x (List.mem_cons_of_mem _ hx))]

/-- The natural-number token parser inverts `natDigits`. -/
theorem parseNatTok_natDigits (n : Nat) (rest : List Char)
    (hrest : noDigitHead rest = true) :
    parseNatTok (natDigits n ++ rest) = some (n, rest) := by
  obtain ⟨c, t, hct, hc⟩ := natDigits_cons n
  simp only [parseNatTok, splitDigits_run _ _ (natDigits_digits n) hrest]
  rw [hct]
  have : digitsVal (c :: t) = n := by rw [← hct, digitsVal_natDigits]
  simp [this]

/-- The integer token parser inverts `encInt`. -/
theorem parseIntTok_encInt (n : Int) (rest : List Char)
    (hrest : noDigitHead rest = true) :
    parseIntTok (encInt n ++ rest) = some (n, rest) := by
  by_cases hn : n < 0
  · simp only [encInt, if_pos hn, List.cons_append, parseIntTok, if_pos rfl]
    rw [parseNatTok_natDigits _ _ hrest]
    simp only [Option.map_some']
    have h1 : (((-n).toNat : Int)) = -n := Int.toNat_of_nonneg (by omega)
    rw [h1]
    simp
  · obtain ⟨c, t, hct, hc⟩ := natDigits_cons n.toNat
    have hcm : c ≠ '-' := digit_ne_lit hc (by decide)
    simp only [encInt, if_neg hn]
    rw [hct, List.cons_append, parseIntTok, if_neg hcm, ← List.cons_append, ← hct,
      parseNatTok_natDigits _ _ hrest]
    simp only [Option.map_some']
    rw [Int.toNat_of_nonneg (by omega)]

/-- The hexadecimal digit parser inverts `hexChar` below 16. -/
theorem hexDigitVal_hexChar : ∀ k, k < 16 → hexDigitVal (hexChar k) = some k := by
  decide

/-- The `\u00XX` escape of a code point below 32 decodes to that code point. -/
theorem hex_quad (t : Nat) (h : t < 32) :
    hex4Val '0' '0' (hexChar (t / 16)) (hexChar (t % 16)) = some t := by
  have h1 : t / 16 < 16 := by omega
  have h2 : t % 16 < 16 := by omega
  have e0 : hexDigitVal '0' = some 0 := by decide
  have key : t / 16 * 16 + t % 16 = t := by omega
  simp [hex4Val, e0, hexDigitVal_hexChar _ h1, hexDigitVal_hexChar _ h2, key]

/-- Step equation: string body starting with the closing quote. -/
theorem parseStrBody_quote (rest : List Char) :
    parseStrBody ('"' :: rest) = some ([], rest) := by
  rw [parseStrBody.eq_def]
  rfl

/-- Step equation: escaped quote. -/
theorem parseStrBody_esc_quote (cs : List Char) :
    parseStrBody ('\\' :: '"' :: cs) =
      (parseStrBody cs).map (fun p => ('"' :: p.1, p.2)) := by
  rw [parseStrBody.eq_def]
  rfl

/-- Step equation: escaped backslash. -/
theorem parseStrBody_esc_back (cs : List Char) :
    parseStrBody ('\\' :: '\\' :: cs) =
      (parseStrBody cs).map (fun p => ('\\' :: p.1, p.2)) := by
  rw [parseStrBody.eq_def]
  rfl

/-- Step equation: `\uXXXX` escape. -/
theorem parseStrBody_esc_u (h1 h2 h3 h4 : Char) (cs : List Char) :
    parseStrBody ('\\' :: 'u' :: h1 :: h2 :: h3 :: h4 :: cs) =
      (match hex4Val h1 h2 h3 h4 with
       | some n => (parseStrBody cs).map (fun p => (Char.ofNat n :: p.1, p.2))
       | none => none) := by
  rw [parseStrBody.eq_def]
  rfl

/-- Step equation: ordinary character. -/
theorem parseStrBody_plain (c : Char) (cs : List Char) (h1 : c ≠ '"')
    (h2 : c ≠ '\\') :
    parseStrBody (c :: cs) = (parseStrBody cs).map (fun p => (c :: p.1, p.2)) := by
  rw [parseStrBody.eq_def]
  simp [h1, h2]

/-- The string-body parser inverts `escapeStr` up to the closing quote. -/
theorem parseStrBody_escape (s rest : List Char) :
    parseStrBody (escapeStr s ++ '"' :: rest) = some (s, rest) := by
  induction s with
  | nil => simpa [escapeStr] using parseStrBody_quote rest
  | cons c s ih =>
    by_cases hq : c = '"'
    · subst hq
      have e : escapeStr ('"' :: s) ++ '"' :: rest
          = '\\' :: '"' :: (escapeStr s ++ '"' :: rest) := by
        simp [escapeStr, escapeChar]
      rw [e, parseStrBody_esc_quote, ih]
      rfl
    · by_cases hb : c = '\\'
      · subst hb
        have e : escapeStr ('\\' :: s) ++ '"' :: rest
            = '\\' :: '\\' :: (escapeStr s ++ '"' :: rest) := by
          simp [escapeStr, escapeChar]
        rw [e, parseStrBody_esc_back, ih]
        rfl
      · by_cases hc : c.toNat < 32
        · have e : escapeStr (c :: s) ++ '"' :: rest
              = '\\' :: 'u' :: '0' :: '0' :: hexChar (c.toNat / 16)
                :: hexChar (c.toNat % 16) :: (escapeStr s ++ '"' :: rest) := by
            simp [escapeStr, escapeChar, hq, hb, hc]
          rw [e, parseStrBody_esc_u, hex_quad c.toNat hc, ih]
          simp [Char.ofNat_toNat]
        · have e : escapeStr (c :: s) ++ '"' :: rest
              = c :: (escapeStr s ++ '"' :: rest) := by
            simp [escapeStr, escapeChar, hq, hb, hc]
          rw [e, parseStrBody_plain c _ hq hb, ih]
          rfl

/-- `encInt` output is nonempty and starts with a minus sign or a digit. -/
theorem encInt_cons (n : Int) :
    ∃ c t, encInt n = c :: t ∧ (c = '-' ∨ isDigitC c = true) := by
  by_cases hn : n < 0
  · exact ⟨'-', natDigits (-n).toNat, by simp [encInt, hn], Or.inl rfl⟩
  · obtain ⟨c, t, hct, hc⟩ := natDigits_cons n.toNat
    exact ⟨c, t, by simp [encInt, hn, hct], Or.inr hc⟩

/-- First characters an integer token can start with are none of the keyword,
string, array or object openers. -/
theorem intHead_ne {c : Char} (hc : c = '-' ∨ isDigitC c = true) :
    c ≠ 'n' ∧ c ≠ 't' ∧ c ≠ 'f' ∧ c ≠ '"' ∧ c ≠ '[' ∧ c ≠ '\x7b' := by
  rcases hc with rfl | h
  · exact ⟨by decide, by decide, by decide, by decide, by decide, by decide⟩
  · exact ⟨digit_ne_lit h (by decide), digit_ne_lit h (by decide),
      digit_ne_lit h (by decide), digit_ne_lit h (by decide),
      digit_ne_lit h (by decide), digit_ne_lit h (by decide)⟩

/-- `encVal` output is nonempty, and its first character is never a closing
bracket, closing brace, comma or colon. -/
theorem encVal_cons (v : JVal) :
    ∃ c t, encVal v = c :: t ∧ c ≠ ']' ∧ c ≠ '\x7d' := by
  match v with
  | .null => exact ⟨'n', _, rfl, by decide, by decide⟩
  | .bool true => exact ⟨'t', _, rfl, by decide, by decide⟩
  | .bool false => exact ⟨'f', _, rfl, by decide, by decide⟩
  | .int n =>
    obtain ⟨c, t, hct, hc⟩ := encInt_cons n
    refine ⟨c, t, by simp [encVal, hct], ?_, ?_⟩
    · rcases hc with rfl | h
      · decide
      · exact digit_ne_lit h (by decide)
    · rcases hc with rfl | h
      · decide
      · exact digit_ne_lit h (by decide)
  | .str s => exact ⟨'"', _, rfl, by decide, by decide⟩
  | .arr a => exact ⟨'[', _, rfl, by decide, by decide⟩
  | .obj o => exact ⟨'\x7b', _, rfl, by decide, by decide⟩

/-! ### Sizes, for the parser's fuel bound -/

mutual
/-- Structural size of a JSON value (at least 1). -/
def sizeV : JVal → Nat
  | .null => 1
  | .bool _ => 1
  | .int _ => 1
  | .str _ => 1
  | .arr a => sizeA a + 1
  | .obj o => sizeO o + 1
/-- Structural size of an array tail. -/
def sizeA : JArr → Nat
  | .nil => 0
  | .cons v t => sizeV v + sizeA t + 1
/-- Structural size of an object tail. -/
def sizeO : JObj → Nat
  | .nil => 0
  | .cons _ v t => sizeV v + sizeO t + 1
end

/-- Values have positive size. -/
theorem sizeV_pos (v : JVal) : 1 ≤ sizeV v := by
  cases v <;> simp [sizeV]

mutual
/-- The rendering of a value is at least as long as its size. -/
theorem sizeV_le (v : JVal) : sizeV v ≤ (encVal v).length := by
  match v with
  | .null => simp [sizeV, encVal, nullTok]
  | .bool b => cases b <;> simp [sizeV, encVal, trueTok, falseTok]
  | .int n =>
    obtain ⟨c, t, hct, _⟩ := encInt_cons n
    simp [sizeV, encVal, hct]
  | .str s => simp [sizeV, encVal]
  | .arr a =>
    have h := sizeA_le_enc a
    simp only [sizeV, encVal, List.length_cons, List.length_append]
    omega
  | .obj o =>
    have h := sizeO_le_enc o
    simp only [sizeV, encVal, List.length_cons, List.length_append]
    omega
/-- The rendering of an array tail is at least as long as its size. -/
theorem sizeA_le_enc (a : JArr) : sizeA a ≤ (encArr a).length + 1 := by
  match a with
  | .nil => simp [sizeA]
  | .cons v t =>
    have h1 := sizeV_le v
    have h2 := sizeA_le_rest t
    simp only [sizeA, encArr, List.length_append]
    omega
/-- The rendering of an array rest is at least as long as its size. -/
theorem sizeA_le_rest (t : JArr) : sizeA t ≤ (encArrRest t).length := by
  match t with
  | .nil => simp [sizeA, encArrRest]
  | .cons v t2 =>
    have h1 := sizeV_le v
    have h2 := sizeA_le_rest t2
    simp only [sizeA, encArrRest, List.length_cons, List.length_append]
    omega
/-- The rendering of an object tail is at least as long as its size. -/
theorem sizeO_le_enc (o : JObj) : sizeO o ≤ (encObj o).length + 1 := by
  match o with
  | .nil => simp [sizeO]
  | .cons k v t =>
    have h1 := sizeV_le v
    have h2 := sizeO_le_rest t
    simp only [sizeO, encObj, List.length_cons, List.length_append]
    omega
/-- The rendering of an object rest is at least as long as its size. -/
theorem sizeO_le_rest (t : JObj) : sizeO t ≤ (encObjRest t).length := by
  match t with
  | .nil => simp [sizeO, encObjRest]
  | .cons k v t2 =>
    have h1 := sizeV_le v
    have h2 := sizeO_le_rest t2
    simp only [sizeO, encObjRest, List.length_cons, List.length_append]
    omega
end

/-- The continuation after an array element starts with `,` or `]`. -/
theorem noDigitHead_arrTail (t : JArr) (rest : List Char) :
    noDigitHead (encArrRest t ++ ']' :: rest) = true := by
  cases t <;> simp [encArrRest, noDigitHead] <;> decide

/-- The continuation after an object member starts with `,` or the closing
brace. -/
theorem noDigitHead_objTail (t : JObj) (rest : List Char) :
    noDigitHead (encObjRest t ++ '\x7d' :: rest) = true := by
  cases t <;> simp [encObjRest, noDigitHead] <;> decide

/-- The parser inverts the renderer, jointly for values, array tails and
object tails; strong induction on the fuel. -/
theorem parse_enc_all (fuel : Nat) :
    (∀ v rest, sizeV v ≤ fuel → noDigitHead rest = true →
        parseVal fuel (encVal v ++ rest) = some (v, rest)) ∧
    (∀ v t rest, sizeV v + sizeA t + 1 ≤ fuel → noDigitHead rest = true →
        parseElems fuel (encVal v ++ (encArrRest t ++ ']' :: rest))
          = some (.cons v t, rest)) ∧
    (∀ k v t rest, sizeV v + sizeO t + 1 ≤ fuel → noDigitHead rest = true →
        parseMembers fuel ('"' :: (escapeStr k
            ++ '"' :: ':' :: (encVal v ++ (encObjRest t ++ '\x7d' :: rest))))
          = some (.cons k v t, rest)) := by
  induction fuel using Nat.strong_induction_on with
  | _ fuel ih =>
    refine ⟨?_, ?_, ?_⟩
    · intro v rest hf hrest
      obtain ⟨f, rfl⟩ : ∃ f, fuel = f + 1 :=
        ⟨fuel - 1, by have := sizeV_pos v; omega⟩
      match v with
      | .null =>
        have e : encVal .null ++ rest = 'n' :: 'u' :: 'l' :: 'l' :: rest := by
          simp [encVal, nullTok]
        rw [e, parseVal.eq_def]
        rfl
      | .bool true =>
        have e : encVal (.bool true) ++ rest = 't' :: 'r' :: 'u' :: 'e' :: rest := by
          simp [encVal, trueTok]
        rw [e, parseVal.eq_def]
        rfl
      | .bool false =>
        have e : encVal (.bool false) ++ rest
            = 'f' :: 'a' :: 'l' :: 's' :: 'e' :: rest := by
          simp [encVal, falseTok]
        rw [e, parseVal.eq_def]
        rfl
      | .int n =>
        obtain ⟨c, t, hct, hc⟩ := encInt_cons n
        obtain ⟨h1, h2, h3, h4, h5, h6⟩ := intHead_ne hc
        have e : encVal (.int n) ++ rest = c :: (t ++ rest) := by
          simp [encVal, hct]
        rw [e, parseVal.eq_def]
        simp only [if_neg h1, if_neg h2, if_neg h3, if_neg h4, if_neg h5, if_neg h6]
        rw [← List.cons_append, ← hct, parseIntTok_encInt n rest hrest]
        rfl
      | .str s =>
        have e : encVal (.str s) ++ rest = '"' :: (escapeStr s ++ '"' :: rest) := by
          simp [encVal]
        rw [e, parseVal.eq_def]
        simp only [if_neg (by decide : ¬('"' = 'n')),
          if_neg (by decide : ¬('"' = 't')), if_neg (by decide : ¬('"' = 'f')),
          if_pos rfl]
        rw [parseStrBody_escape]
        rfl
      | .arr .nil =>
        have e : encVal (.arr .nil) ++ rest = '[' :: ']' :: rest := by
          simp [encVal, encArr]
        rw [e, parseVal.eq_def]
        rfl
      | .arr (.cons v t) =>
        obtain ⟨c2, t2, hct2, hne1, _⟩ := encVal_cons v
        have e : encVal (.arr (.cons v t)) ++ rest
            = '[' :: (c2 :: (t2 ++ (encArrRest t ++ ']' :: rest))) := by
          simp [encVal, encArr, hct2]
        rw [e, parseVal.eq_def]
        simp only [if_neg (by decide : ¬('[' = 'n')),
          if_neg (by decide : ¬('[' = 't')), if_neg (by decide : ¬('[' = 'f')),
          if_neg (by decide : ¬('[' = '"')), if_pos rfl, if_neg hne1, if_true,
          ← List.cons_append, ← hct2]
        rw [(ih f (by omega)).2.1 v t rest
          (by simp [sizeV, sizeA] at hf; omega) hrest]
        rfl
      | .obj .nil =>
        have e : encVal (.obj .nil) ++ rest = '\x7b' :: '\x7d' :: rest := by
          simp [encVal, encObj]
        rw [e, parseVal.eq_def]
        rfl
      | .obj (.cons k v t) =>
        have e : encVal (.obj (.cons k v t)) ++ rest
            = '\x7b' :: ('"' :: (escapeStr k
                ++ '"' :: ':' :: (encVal v ++ (encObjRest t ++ '\x7d' :: rest)))) := by
          simp [encVal, encObj]
        rw [e, parseVal.eq_def]
        simp only [if_neg (by decide : ¬('\x7b' = 'n')),
          if_neg (by decide : ¬('\x7b' = 't')),
          if_neg (by decide : ¬('\x7b' = 'f')),
          if_neg (by decide : ¬('\x7b' = '"')),
          if_neg (by decide : ¬('\x7b' = '[')), if_pos rfl,
          if_neg (by decide : ¬('"' = '\x7d'))]
        rw [(ih f (by omega)).2.2 k v t rest
          (by simp [sizeV, sizeO] at hf; omega) hrest]
        rfl
    · intro v t rest hf hrest
      obtain ⟨f, rfl⟩ : ∃ f, fuel = f + 1 := ⟨fuel - 1, by omega⟩
      rw [parseElems.eq_def]
      simp only [(ih f (by omega)).1 v _ (by omega) (noDigitHead_arrTail t rest),
        Option.some_bind]
      match t, hf with
      | .nil, hf => simp [encArrRest]
      | .cons w t2, hf =>
        have e : encArrRest (.cons w t2) ++ ']' :: rest
            = ',' :: (encVal w ++ (encArrRest t2 ++ ']' :: rest)) := by
          simp [encArrRest]
        rw [e]
        simp only [if_pos rfl]
        have hw := sizeV_pos v
        rw [(ih f (by omega)).2.1 w t2 rest
          (by simp [sizeA] at hf; omega) hrest]
        rfl
    · intro k v t rest hf hrest
      obtain ⟨f, rfl⟩ : ∃ f, fuel = f + 1 := ⟨fuel - 1, by omega⟩
      rw [parseMembers.eq_def]
      simp only [if_pos rfl, parseStrBody_escape, Option.some_bind,
        (ih f (by omega)).1 v _ (by omega) (noDigitHead_objTail t rest)]
      match t, hf with
      | .nil, hf => simp [encObjRest]
      | .cons k2 v2 t2, hf =>
        have e : encObjRest (.cons k2 v2 t2) ++ '\x7d' :: rest
            = ',' :: ('"' :: (escapeStr k2
                ++ '"' :: ':' :: (encVal v2 ++ (encObjRest t2 ++ '\x7d' :: rest)))) := by
          simp [encObjRest]
        rw [e]
        simp only [if_pos rfl]
        have hw := sizeV_pos v
        rw [(ih f (by omega)).2.2 k2 v2 t2 rest
          (by simp [sizeO] at hf; omega) hrest]
        rfl

/-- The parser inverts the renderer on any single value. -/
theorem parseVal_enc (v : JVal) (rest : List Char) (fuel : Nat)
    (hf : sizeV v ≤ fuel) (hrest : noDigitHead rest = true) :
    parseVal fuel (encVal v ++ rest) = some (v, rest) :=
  (parse_enc_all fuel).1 v rest hf hrest

/-- Decoding a rendered, NUL-terminated frame recovers the rendered value. -/
theorem decodeFrame_encVal (v : JVal) :
    decodeFrame (encVal v ++ [Char.ofNat 0]) = some v := by
  have h1 : (encVal v ++ [Char.ofNat 0]).dropLast = encVal v :=
    List.dropLast_concat
  have h2 : (encVal v ++ [Char.ofNat 0]).length = (encVal v).length + 1 := by
    simp
  have h3 := parseVal_enc v [] ((encVal v).length + 1)
    (by have := sizeV_le v; omega) rfl
  rw [List.append_nil] at h3
  rw [decodeFrame, h1, h2, h3]


/-! ## Claim theorems -/

/-- Claim C10: encoding a request message carrying payload `x` in its `data`
field to a NUL-terminated frame (`send_request`'s encoding) and decoding that
frame (`check_read_response` / `check_write_response`'s decoding) recovers a
message whose `data` field is exactly `x`. -/
theorem c10_payload_roundtrip (name : List Char) (x : JVal) :
    decodeFrame (encodeRequest name x)
      = some (.obj (.cons (chars "request") (.str name)
          (.cons (chars "data") x .nil))) ∧
    jIndex (.obj (.cons (chars "request") (.str name)
        (.cons (chars "data") x .nil))) (chars "data") = .ok x := by
  refine ⟨decodeFrame_encVal _, ?_⟩
  have hne : ¬(chars "request" = chars "data") := by decide
  simp [jIndex, jFind, hne]

/-- Claim C1 (code bug): the unique-index loop iterates
`hw_versions.items()` — 2-tuples `(device_id, record)` — but unpacks each item
into three variables, so with any device already registered the unpacking
raises `ValueError` and ingestion dies, whether or not the uri matches; only
a first device on an empty registry ingests, with `unique_index` 0 visible in
the actuator uri. -/
theorem c1_unique_index_unpack_raises :
    devDescCb (fun s => s) [(.int 5, (chars "dev-uri", chars "A", .int 1))]
        (.int 7) ⟨chars "B", chars "dev-uri", .int 1, []⟩
      = .error .valueError ∧
    devDescCb (fun s => s) [(.int 5, (chars "other-uri", chars "A", .int 1))]
        (.int 7) ⟨chars "B", chars "dev-uri", .int 1, []⟩
      = .error .valueError ∧
    devDescCb (fun s => s) [] (.int 5)
        ⟨chars "A", chars "dev-uri", .int 1, [⟨3, chars "knob", 1, 2⟩]⟩
      = .ok ([.hwAdded (chars "dev-uri") (chars "A") (.int 1),
              .actAdded (.int 5) 3
                ⟨chars "dev-uri:0:3", chars "A:knob",
                 chars ":bypass:toggled:", [], 2⟩,
              .completed],
             [(.int 5, (chars "dev-uri", chars "A", .int 1))]) := by
  refine ⟨rfl, rfl, ?_⟩
  rfl

/-- Claim C4 counterexample: a device uri containing a TAB — whitespace, but
not a space — is not rejected: ingestion fires the hardware-added callback
and records the device. -/
theorem c4_whitespace_counterexample :
    (['a', '\t', 'b'].any isPyWhite = true) ∧
    devDescCb (fun s => s) [] (.int 1) ⟨chars "L", ['a', '\t', 'b'], .null, []⟩
      = .ok ([.hwAdded ['a', '\t', 'b'] (chars "L") .null, .completed],
          [(.int 1, (['a', '\t', 'b'], chars "L", .null))]) ∧
    isHwAdded (.hwAdded ['a', '\t', 'b'] (chars "L") .null) = true :=
  ⟨by decide, by rfl, by decide⟩

/-- Claim C4 (amended: "whitespace" narrowed to a space character, which is
the only character the source checks): a device whose uri contains a space is
rejected — no hardware-added and no actuator-added callback, not recorded,
ingestion returns without raising, and the completion callback still fires. -/
theorem c4_space_rejected (symb : List Char → List Char) (hw : HwVersions)
    (devId : JVal) (dev : CCDescriptor) (h : ' ' ∈ dev.uri) :
    devDescCb symb hw devId dev = .ok ([.warned dev.uri, .completed], hw) ∧
    ∀ evs hw2, devDescCb symb hw devId dev = .ok (evs, hw2) →
      evs.all (fun e => !(isHwAdded e) && !(isActAdded e)) = true ∧
      hw2 = hw ∧ IngEvent.completed ∈ evs := by
  have he : devDescCb symb hw devId dev
      = .ok ([.warned dev.uri, .completed], hw) := by
    simp [devDescCb, h]
  refine ⟨he, ?_⟩
  intro evs hw2 h2
  rw [he] at h2
  simp only [Except.ok.injEq, Prod.mk.injEq] at h2
  obtain ⟨h3, h4⟩ := h2
  subst h3
  subst h4
  exact ⟨by rfl, rfl, by simp⟩

/-- Claim C4 witness: a concrete space-containing uri is rejected with only
the warning and the completion in the trace. -/
theorem c4_space_rejected_witness :
    devDescCb (fun s => s) [] (.int 1) ⟨chars "L", chars "a b", .null, []⟩
      = .ok ([.warned (chars "a b"), .completed], []) :=
  (c4_space_rejected (fun s => s) [] (.int 1)
    ⟨chars "L", chars "a b", .null, []⟩ (by decide)).1

/-- Claim C6 counterexample: the frame `\x7b\x7d` decodes to valid JSON that
lacks the `event` key; the failure is not absorbed or logged — the KeyError
escapes the handler — although the `finally` block still re-arms the read. -/
theorem c6_counterexample :
    check_read_response [] (chars "\x7b\x7d" ++ [Char.ofNat 0])
      = ⟨[], [], true, some .keyError⟩ := by decide

/-- Claim C6 (amended): only JSON-decode failures are absorbed locally with a
log; but for every frame — including ones whose handling raises — the read
loop is re-armed by the `finally` block and continues with the next frame. -/
theorem c6_decode_failures_absorbed (hw : HwVersions) (resp : List Char) :
    (check_read_response hw resp).rearmed = true ∧
    (decodeFrame resp = none →
      check_read_response hw resp = ⟨[.rlogged], hw, true, none⟩) := by
  constructor
  · cases hd : decodeFrame resp with
    | none => simp [check_read_response, hd]
    | some d =>
      cases hb : readBody hw d with
      | ok p => simp [check_read_response, hd, hb]
      | error e => simp [check_read_response, hd, hb]
  · intro h
    simp [check_read_response, h]

/-- Claim C6 witness: an undecodable frame is absorbed, logged, re-armed. -/
theorem c6_decode_failures_witness :
    (check_read_response [] ['?', Char.ofNat 0]).rearmed = true ∧
    check_read_response [] ['?', Char.ofNat 0] = ⟨[.rlogged], [], true, none⟩ :=
  ⟨(c6_decode_failures_absorbed [] ['?', Char.ofNat 0]).1,
   (c6_decode_failures_absorbed [] ['?', Char.ofNat 0]).2 (by decide)⟩

/-- Claim C7 counterexample: after a crash the latch is true, but
`restart_if_crashed` with the socket path present runs `start`, which resets
`initialized` to false — the latch is not monotone across the recovery
path. -/
theorem c7_counterexample :
    (connection_closed ⟨false, false, false, none, [], [], some ()⟩).1.initialized
      = true ∧
    (restart_if_crashed true
        (connection_closed
          ⟨false, false, false, none, [], [], some ()⟩).1).1.initialized
      = false := by decide

/-- Claim C7 (amended): the latch is monotone under every operation except
`start` with the socket path present — `set_initialized`,
`connection_closed`, `wait_initialized`, queue processing and sending, `start`
with the path missing, and `restart_if_crashed` when not crashed or when the
path is missing, all preserve `initialized = true`. -/
theorem c7_latch_monotone_except_start (s : CCState) (cb : Nat) (path : Bool)
    (replies : List (List Char)) (name : List Char) (payload : JVal)
    (c : Option Nat) (h : s.initialized = true) :
    (set_initialized s).1.initialized = true ∧
    (connection_closed s).1.initialized = true ∧
    (wait_initialized s cb).1.initialized = true ∧
    (process_write_queue s replies).1.initialized = true ∧
    (send_request s name payload c replies).1.initialized = true ∧
    (path = false → (start path s).1.initialized = true) ∧
    ((s.crashed = false ∨ path = false) →
      (restart_if_crashed path s).1.initialized = true) := by
  refine ⟨?_, ?_, ?_, ?_, ?_, ?_, ?_⟩
  · cases hcb : s.initialized_cb <;> simp [set_initialized, hcb]
  · cases hcb : s.initialized_cb <;> simp [connection_closed, set_initialized, hcb]
  · simp [wait_initialized, h]
  · simp [process_write_queue, h]
  · simp only [send_request]
    split <;> simp [process_write_queue, h]
  · intro hp
    simp [start, hp]
  · intro hd
    rcases hd with hc | hp
    · simp [restart_if_crashed, hc, h]
    · by_cases hc : s.crashed = false
      · simp [restart_if_crashed, hc, h]
      · simp [restart_if_crashed, hc, start, hp]

/-- Claim C7 witness: a concrete initialized state stays initialized under
`set_initialized` and under `restart_if_crashed` with the path missing. -/
theorem c7_latch_monotone_witness :
    (set_initialized ⟨false, false, true, none, [], [], some ()⟩).1.initialized
      = true ∧
    (restart_if_crashed false
        ⟨false, false, true, none, [], [], some ()⟩).1.initialized = true :=
  ⟨(c7_latch_monotone_except_start ⟨false, false, true, none, [], [], some ()⟩
      0 false [] [] .null none rfl).1,
   (c7_latch_monotone_except_start ⟨false, false, true, none, [], [], some ()⟩
      0 false [] [] .null none rfl).2.2.2.2.2.2 (Or.inr rfl)⟩


/-! ### Write-queue lemmas -/

/-- Draining with the socket gone pops and drops every queued request in
order, invokes nothing, and ends idle with an empty queue. -/
theorem drainGo_none (q : List Req) (replies : List (List Char)) :
    drainGo none q replies
      = ⟨[], true, q.map (fun r => QEvent.discarded r.name), none⟩ := by
  induction q with
  | nil => rfl
  | cons r rest ih => simp [drainGo, ih]

/-- The trace of a socket-less drain, directly. -/
theorem drainGo_none_trace (q : List Req) (replies : List (List Char)) :
    (drainGo none q replies).trace
      = q.map (fun r => QEvent.discarded r.name) := by
  rw [drainGo_none]

/-- Step equations of `outstandingOk` for the neutral events. -/
theorem outstandingOk_logged (tr : List QEvent) (n : Nat) :
    outstandingOk (.logged :: tr) n = outstandingOk tr n := by
  rw [outstandingOk.eq_def]

/-- `invoked` does not change the outstanding count. -/
theorem outstandingOk_invoked (cb : Nat) (p : JVal) (tr : List QEvent) (n : Nat) :
    outstandingOk (.invoked cb p :: tr) n = outstandingOk tr n := by
  rw [outstandingOk.eq_def]

/-- `discarded` does not change the outstanding count. -/
theorem outstandingOk_discarded (nm : List Char) (tr : List QEvent) (n : Nat) :
    outstandingOk (.discarded nm :: tr) n = outstandingOk tr n := by
  rw [outstandingOk.eq_def]

/-- `sent` from an idle line leaves one request outstanding. -/
theorem outstandingOk_sent (nm : List Char) (tr : List QEvent) :
    outstandingOk (.sent nm :: tr) 0 = outstandingOk tr 1 := by
  rw [outstandingOk.eq_def]

/-- `replied` with one request outstanding clears the line. -/
theorem outstandingOk_replied (tr : List QEvent) :
    outstandingOk (.replied :: tr) 1 = outstandingOk tr 0 := by
  rw [outstandingOk.eq_def]
  simp

/-- A block of neutral events preserves the outstanding count. -/
theorem outstandingOk_neutral (evs tr : List QEvent) (n : Nat)
    (hn : evs.all neutralEv = true) :
    outstandingOk (evs ++ tr) n = outstandingOk tr n := by
  induction evs with
  | nil => rfl
  | cons e rest ih =>
    simp only [List.all_cons, Bool.and_eq_true] at hn
    cases e with
    | sent nm => simp [neutralEv] at hn
    | replied => simp [neutralEv] at hn
    | logged =>
      rw [List.cons_append, outstandingOk_logged]
      exact ih hn.2
    | invoked cb p =>
      rw [List.cons_append, outstandingOk_invoked]
      exact ih hn.2
    | discarded nm =>
      rw [List.cons_append, outstandingOk_discarded]
      exact ih hn.2

/-- `invokedCbs` distributes over append. -/
theorem invokedCbs_append (a b : List QEvent) :
    invokedCbs (a ++ b) = invokedCbs a ++ invokedCbs b := by
  induction a with
  | nil => rfl
  | cons e rest ih => cases e <;> simp [invokedCbs, ih]

/-- Whatever `check_write_response` returns without raising: it invokes at
most the request's own callback, and emits no write or read events. -/
theorem cwr_shape (r : Req) (resp : List Char) (evs : List QEvent)
    (h : check_write_response r resp = .ok evs) :
    List.Sublist (invokedCbs evs) r.callback.toList
      ∧ evs.all neutralEv = true := by
  cases hcb : r.callback with
  | none =>
    simp only [check_write_response, hcb] at h
    injection h with h2
    subst h2
    exact ⟨by simp [invokedCbs], rfl⟩
  | some cb =>
    cases hd : decodeFrame resp with
    | none =>
      simp only [check_write_response, hcb, hd] at h
      injection h with h2
      subst h2
      exact ⟨by simp [invokedCbs], rfl⟩
    | some d =>
      by_cases hn : d = JVal.null
      · simp only [check_write_response, hcb, hd, if_pos hn] at h
        injection h with h2
        subst h2
        exact ⟨by simp [invokedCbs], rfl⟩
      · cases hj : jIndex d (chars "reply") with
        | error e =>
          simp only [check_write_response, hcb, hd, if_neg hn, hj] at h
          exact absurd h (by simp)
        | ok rv =>
          by_cases hr : rv = JVal.str r.name
          · cases hjd : jIndex d (chars "data") with
            | error e =>
              simp only [check_write_response, hcb, hd, if_neg hn, hj,
                if_pos hr, hjd] at h
              exact absurd h (by simp)
            | ok payload =>
              simp only [check_write_response, hcb, hd, if_neg hn, hj,
                if_pos hr, hjd] at h
              injection h with h2
              subst h2
              refine ⟨?_, rfl⟩
              rw [show invokedCbs [QEvent.invoked cb payload] = [cb] from rfl]
              simp [Option.toList]
          · simp only [check_write_response, hcb, hd, if_neg hn, hj,
              if_neg hr] at h
            injection h with h2
            subst h2
            exact ⟨by simp [invokedCbs], rfl⟩

/-- Claim C5: for every queue of requests and stream of replies, reply
callbacks fire in strict enqueue (FIFO) order — the delivered callback
sequence is an order-preserving subsequence of the queued callback sequence,
dropped replies simply missing — and the trace observes the
one-request-in-flight discipline, so no two request/reply cycles overlap and
no two callbacks interleave. -/
theorem c5_fifo_one_in_flight (socket : Option Unit) (queue : List Req)
    (replies : List (List Char)) :
    List.Sublist (invokedCbs (drainGo socket queue replies).trace)
        (queue.filterMap Req.callback) ∧
    outstandingOk (drainGo socket queue replies).trace 0 = true := by
  induction queue generalizing replies with
  | nil => exact ⟨by simp [drainGo, invokedCbs], by simp [drainGo, outstandingOk]⟩
  | cons r rest ih =>
    cases socket with
    | none =>
      refine ⟨?_, ?_⟩
      · rw [drainGo_none_trace, List.map_cons]
        have h1 : List.Sublist
            (invokedCbs (drainGo none rest replies).trace)
            (rest.filterMap Req.callback) := (ih replies).1
        rw [drainGo_none_trace] at h1
        have h2 : invokedCbs
            (QEvent.discarded r.name ::
              rest.map (fun x => QEvent.discarded x.name))
            = invokedCbs (rest.map (fun x => QEvent.discarded x.name)) := rfl
        rw [h2]
        cases hr : r.callback with
        | none => simpa [List.filterMap_cons, hr] using h1
        | some cb =>
          simp only [List.filterMap_cons, hr]
          exact List.Sublist.cons cb h1
      · have h1 : outstandingOk (drainGo none rest replies).trace 0 = true :=
          (ih replies).2
        rw [drainGo_none_trace] at h1
        rw [drainGo_none_trace, List.map_cons, outstandingOk_discarded]
        exact h1
    | some u =>
      cases replies with
      | nil =>
        refine ⟨by simp [drainGo, invokedCbs], ?_⟩
        rw [show (drainGo (some u) (r :: rest) []).trace = [.sent r.name] from rfl,
          outstandingOk_sent]
        rfl
      | cons resp rs =>
        cases hw : check_write_response r resp with
        | error e =>
          refine ⟨?_, ?_⟩
          · rw [show (drainGo (some u) (r :: rest) (resp :: rs)).trace
                = [.sent r.name, .replied] from by simp [drainGo, hw]]
            simp [invokedCbs]
          · rw [show (drainGo (some u) (r :: rest) (resp :: rs)).trace
                = [.sent r.name, .replied] from by simp [drainGo, hw]]
            rw [outstandingOk_sent, outstandingOk_replied]
            rfl
        | ok evs =>
          obtain ⟨hs, hne⟩ := cwr_shape r resp evs hw
          have htr : (drainGo (some u) (r :: rest) (resp :: rs)).trace
              = .sent r.name :: .replied
                  :: (evs ++ (drainGo (some u) rest rs).trace) := by
            simp [drainGo, hw]
          refine ⟨?_, ?_⟩
          · rw [htr]
            rw [show invokedCbs (QEvent.sent r.name :: QEvent.replied
                :: (evs ++ (drainGo (some u) rest rs).trace))
              = invokedCbs (evs ++ (drainGo (some u) rest rs).trace) from rfl]
            rw [invokedCbs_append]
            have h1 := (ih rs).1
            cases hr : r.callback with
            | none =>
              rw [hr] at hs
              simp only [Option.toList] at hs
              have hz : invokedCbs evs = [] := List.sublist_nil.mp hs
              rw [hz]
              simpa [List.filterMap_cons, hr] using h1
            | some cb =>
              rw [hr] at hs
              simp only [List.filterMap_cons, hr]
              exact List.Sublist.append hs h1
          · rw [htr, outstandingOk_sent, outstandingOk_replied,
              outstandingOk_neutral _ _ _ hne]
            exact (ih rs).2

/-- Claim C2: after `connection_closed` the latch is up even if bootstrap had
not completed, the state records the crash and the socket handle is gone; and
on any socket-less state, draining pops and discards every queued request in
order without invoking its callback, ending with an idle, empty queue — a
request sent afterwards while idle is likewise immediately discarded. -/
theorem c2_crash_discards (s t : CCState) (replies : List (List Char))
    (name : List Char) (payload : JVal) (cb : Option Nat)
    (ht1 : t.socket = none) (ht2 : t.idle = true) :
    ((connection_closed s).1.initialized = true ∧
     (connection_closed s).1.crashed = true ∧
     (connection_closed s).1.socket = none) ∧
    process_write_queue t replies
      = ({ t with write_queue := [], idle := true },
         t.write_queue.map (fun r => QEvent.discarded r.name), none) ∧
    send_request t name payload cb replies
      = ({ t with write_queue := [], idle := true },
         t.write_queue.map (fun r => QEvent.discarded r.name)
           ++ [QEvent.discarded name], none) := by
  refine ⟨⟨?_, ?_, ?_⟩, ?_, ?_⟩
  · cases hcb : s.initialized_cb <;>
      simp [connection_closed, set_initialized, hcb]
  · cases hcb : s.initialized_cb <;>
      simp [connection_closed, set_initialized, hcb]
  · cases hcb : s.initialized_cb <;>
      simp [connection_closed, set_initialized, hcb]
  · obtain ⟨tc, ti, tini, ticb, thv, twq, tso⟩ := t
    simp only at ht1 ht2
    subst ht1
    simp [process_write_queue, drainGo_none]
  · obtain ⟨tc, ti, tini, ticb, thv, twq, tso⟩ := t
    simp only at ht1 ht2
    subst ht1
    subst ht2
    simp [send_request, process_write_queue, drainGo_none]

/-- Claim C2 witness: a closed crashed state with one queued request. -/
theorem c2_crash_discards_witness :
    process_write_queue
        ⟨true, true, true, none, [], [⟨chars "x", chars "a", some 3⟩], none⟩ []
      = (⟨true, true, true, none, [], [], none⟩,
         [QEvent.discarded (chars "a")], none) :=
  (c2_crash_discards
    ⟨true, true, true, none, [], [], none⟩
    ⟨true, true, true, none, [], [⟨chars "x", chars "a", some 3⟩], none⟩
    [] (chars "b") .null none rfl rfl).2.1

/-- Claim C3 counterexample: two callbacks registered before the flip; the
flip invokes only the second — the first is never released, refuting "each of
the waiting callbacks is released exactly once". -/
theorem c3_counterexample :
    (let s0 : CCState := ⟨false, false, false, none, [], [], some ()⟩
     let w1 := wait_initialized s0 1
     let w2 := wait_initialized w1.1 2
     let fin := set_initialized w2.1
     (w1.2 ++ w2.2 ++ fin.2).count (LEvent.invoked 1) = 0 ∧
     w1.2 ++ w2.2 ++ fin.2 = [LEvent.invoked 2]) := by decide

/-- While the latch is down, registrations emit nothing and only the last
registration survives in the single callback slot. -/
theorem waitAll_shape (cbs : List Nat) (s : CCState)
    (h : s.initialized = false) :
    (waitAll s cbs).2 = [] ∧
    (waitAll s cbs).1
      = { s with initialized_cb := (match cbs.getLast? with
            | some c => some c
            | none => s.initialized_cb) } := by
  induction cbs generalizing s with
  | nil => exact ⟨rfl, rfl⟩
  | cons cb rest ih =>
    have hw : wait_initialized s cb = ({ s with initialized_cb := some cb }, []) := by
      simp [wait_initialized, h]
    have hstep := ih { s with initialized_cb := some cb } (by simpa using h)
    refine ⟨?_, ?_⟩
    · show (wait_initialized s cb).2
          ++ (waitAll (wait_initialized s cb).1 rest).2 = []
      rw [hw]
      simpa using hstep.1
    · show (waitAll (wait_initialized s cb).1 rest).1 = _
      rw [hw]
      rw [hstep.2]
      cases rest with
      | nil => rfl
      | cons x xs =>
        have hcc : (cb :: x :: xs).getLast? = (x :: xs).getLast? :=
          List.getLast?_cons_cons ..
        rw [hcc]
        cases hg : (x :: xs).getLast? with
        | none => exact absurd hg (by simp [List.getLast?_cons_cons, List.getLast?])
        | some c => rfl

/-- Claim C3 (amended): if the latch is already up, `wait_initialized`
invokes the callback synchronously; otherwise registrations land in a single
slot, so the flip invokes exactly the most recently registered callback,
exactly once — earlier registrations are silently dropped, never invoked. -/
theorem c3_latch_single_slot (s : CCState) (cb : Nat) (cbs : List Nat)
    (c : Nat) :
    (s.initialized = true → wait_initialized s cb = (s, [.invoked cb])) ∧
    (s.initialized = false → cbs.getLast? = some c →
      (waitAll s cbs).2 = [] ∧
      set_initialized (waitAll s cbs).1
        = ({ s with initialized := true, initialized_cb := none },
           [.invoked c])) := by
  refine ⟨?_, ?_⟩
  · intro h
    simp [wait_initialized, h]
  · intro h hg
    obtain ⟨h1, h2⟩ := waitAll_shape cbs s h
    refine ⟨h1, ?_⟩
    rw [h2, hg]
    rfl

/-- Claim C3 witness: latch already up invokes synchronously; latch down with
registrations 1 then 2 releases only callback 2 at the flip. -/
theorem c3_latch_single_slot_witness :
    wait_initialized ⟨false, false, true, none, [], [], some ()⟩ 7
      = (⟨false, false, true, none, [], [], some ()⟩, [.invoked 7]) ∧
    ((waitAll ⟨false, false, false, none, [], [], some ()⟩ [1, 2]).2 = [] ∧
     set_initialized (waitAll ⟨false, false, false, none, [], [], some ()⟩ [1, 2]).1
       = (⟨false, false, true, none, [], [], some ()⟩, [.invoked 2])) := by
  constructor
  · exact (c3_latch_single_slot
      ⟨false, false, true, none, [], [], some ()⟩ 7 [] 0).1 rfl
  · have h := (c3_latch_single_slot
      ⟨false, false, false, none, [], [], some ()⟩ 0 [1, 2] 2).2 rfl rfl
    simpa using h

/-- Claim C8: for an in-flight request with a callback, an undecodable reply
frame, or one that decodes with a declared reply-name different from the
request's name, is logged and dropped: the callback is never invoked and the
drain proceeds directly to the next queued request. -/
theorem c8_bad_replies_dropped (r : Req) (resp : List Char) (cb : Nat)
    (rest : List Req) (rs : List (List Char)) (hcb : r.callback = some cb) :
    (decodeFrame resp = none →
      check_write_response r resp = .ok [.logged] ∧
      drainGo (some ()) (r :: rest) (resp :: rs)
        = ⟨(drainGo (some ()) rest rs).queue, (drainGo (some ()) rest rs).idle,
           .sent r.name :: .replied :: .logged
             :: (drainGo (some ()) rest rs).trace,
           (drainGo (some ()) rest rs).err⟩) ∧
    (∀ d rv, decodeFrame resp = some d → jIndex d (chars "reply") = .ok rv →
      rv ≠ .str r.name →
      check_write_response r resp = .ok [.logged] ∧
      drainGo (some ()) (r :: rest) (resp :: rs)
        = ⟨(drainGo (some ()) rest rs).queue, (drainGo (some ()) rest rs).idle,
           .sent r.name :: .replied :: .logged
             :: (drainGo (some ()) rest rs).trace,
           (drainGo (some ()) rest rs).err⟩) := by
  refine ⟨?_, ?_⟩
  · intro h
    have hc : check_write_response r resp = .ok [.logged] := by
      unfold check_write_response
      rw [hcb, h]
    exact ⟨hc, by simp [drainGo, hc]⟩
  · intro d rv hd hj hne
    have hdn : d ≠ JVal.null := by
      intro e
      subst e
      simp [jIndex] at hj
    have hc : check_write_response r resp = .ok [.logged] := by
      simp only [check_write_response, hcb, hd, if_neg hdn, hj, if_neg hne]
    exact ⟨hc, by simp [drainGo, hc]⟩

/-- Claim C8 witness: an undecodable frame and a frame replying to the name
`bar` are both dropped for a request named `foo`. -/
theorem c8_bad_replies_witness :
    check_write_response ⟨chars "x", chars "foo", some 7⟩ ['?', Char.ofNat 0]
      = .ok [.logged] ∧
    check_write_response ⟨chars "x", chars "foo", some 7⟩
        (chars "\x7b\"reply\":\"bar\",\"data\":null\x7d" ++ [Char.ofNat 0])
      = .ok [.logged] :=
  ⟨((c8_bad_replies_dropped ⟨chars "x", chars "foo", some 7⟩ ['?', Char.ofNat 0]
      7 [] [] rfl).1 (by decide)).1,
   ((c8_bad_replies_dropped ⟨chars "x", chars "foo", some 7⟩
      (chars "\x7b\"reply\":\"bar\",\"data\":null\x7d" ++ [Char.ofNat 0])
      7 [] [] rfl).2
      (.obj (.cons (chars "reply") (.str (chars "bar"))
        (.cons (chars "data") .null .nil)))
      (.str (chars "bar")) (by decide) (by decide) (by decide)).1⟩

/-! ### Mode-tag lemmas (C9) -/

/-- `tagConcat` is empty only on an empty tag list. -/
theorem tagConcat_eq_nil (ts : List (List Char)) :
    tagConcat ts = [] ↔ ts = [] := by
  cases ts <;> simp [tagConcat]

/-- The accumulated mode string is the colon-prefixed concatenation of the
recognized tags. -/
theorem modesStr_eq_tags (m : Int) : modesStr m = tagConcat (modeTags m) := by
  by_cases h1 : Int.land m 1 = 0 <;> by_cases h2 : Int.land m 2 = 0 <;>
    by_cases h4 : Int.land m 4 = 0 <;>
    simp [modesStr, modeTags, tagConcat, h1, h2, h4, chars]

/-- The mode string is empty exactly when no recognized bit is set. -/
theorem modesStr_empty_iff (m : Int) :
    modesStr m = [] ↔ modeTags m = [] := by
  by_cases h1 : Int.land m 1 = 0 <;> by_cases h2 : Int.land m 2 = 0 <;>
    by_cases h4 : Int.land m 4 = 0 <;>
    simp [modesStr, modeTags, h1, h2, h4, chars]

/-- Claim C9: the actuator loop emits, for each actuator whose bitmask has at
least one recognized bit, an actuator-added event whose mode string is the
concatenation of the recognized tags, each prefixed by `:`, with a trailing
`:`; an actuator with no recognized bit (in particular `supported_modes = 0`,
whose tag list is empty) is skipped and never produces a callback. -/
theorem c9_mode_tags (devId : JVal) (devUri : List Char) (uid : Nat)
    (rawLabel : List Char) (acts : List CCActuator) :
    actuatorEvents devId devUri uid rawLabel acts
      = acts.filterMap (fun act =>
          if modeTags act.supported_modes = [] then none
          else some (.actAdded devId act.id
            ⟨devUri ++ ':' :: (natDigits uid ++ ':' :: encInt act.id),
             rawLabel ++ ':' :: act.name,
             tagConcat (modeTags act.supported_modes) ++ [':'],
             [], act.max_assignments⟩)) ∧
    modeTags 0 = [] := by
  refine ⟨?_, by decide⟩
  induction acts with
  | nil => rfl
  | cons act rest ih =>
    by_cases h : modesStr act.supported_modes = []
    · rw [List.filterMap_cons]
      simp only [(modesStr_empty_iff act.supported_modes).mp h, if_pos rfl]
      rw [← ih]
      simp [actuatorEvents, h]
    · rw [List.filterMap_cons]
      have h2 : ¬(modeTags act.supported_modes = []) :=
        fun hh => h ((modesStr_empty_iff act.supported_modes).mpr hh)
      simp only [if_neg h2]
      have h3 : ¬tagConcat (modeTags act.supported_modes) = [] :=
        fun hh => h2 ((tagConcat_eq_nil _).mp hh)
      simp [actuatorEvents, h, ih, modesStr_eq_tags, h3]

end CC
